import Mathlib

/-!
Verification of the homeview-cli build pipeline (src/index.js) against its
natural-language specification.  The JavaScript source is shallowly embedded:
pure computations become Lean functions, the filesystem becomes an explicit
directory-tree value threaded through the build steps, and the external
libraries the code calls (jsonschema, tar, the JSON persistence of fs-extra)
are modelled from their documented behaviour at the granularity the
repository relies on.
-/

set_option maxHeartbeats 1000000

namespace Homeview

/-- JSON values as they appear in a loaded `homeview.json` manifest.  Numbers
are modelled as integers: the manifests this tool writes and validates contain
no numeric fields, and no theorem below depends on fractional numbers. -/
inductive JVal where
  | jstr : String → JVal
  | jbool : Bool → JVal
  | jnum : Int → JVal
  | jnull : JVal
  | jarr : List JVal → JVal
  | jobj : List (String × JVal) → JVal

/-- A manifest object: a JSON object represented as an association list in key
insertion order. -/
abbrev Manifest : Type := List (String × JVal)

/-- Property lookup on a JSON object (first binding wins, as in a real JS
object there is at most one binding per key). -/
def lookupJ (k : String) : List (String × JVal) → Option JVal
  | [] => none
  | (k', v) :: rest => if k' = k then some v else lookupJ k rest

/-- The `type` of a schema property in src/index.js lines 22-44: `string`,
`boolean` or `array` (of string). -/
inductive FieldType where
  | fstring
  | fboolean
  | farray
deriving DecidableEq

/-- One property description of `SCHEMA` (src/index.js lines 22-44): its type,
its `required` flag (absent in the source is modelled as `false`), its
`optional` flag (absent is `none`) and its `enum` list (absent is `[]`). -/
structure FieldSpec where
  ftype : FieldType
  required : Bool
  opt : Option Bool
  enumVals : List String
deriving DecidableEq

/-- The fixed `SCHEMA` constant of src/index.js lines 22-44, field for field,
with the exact `required` / `optional` / `enum` annotations of the source. -/
def SCHEMA : List (String × FieldSpec) := [
  ("app_name", ⟨.fstring, true, none, []⟩),
  ("package_name", ⟨.fstring, true, none, []⟩),
  ("version", ⟨.fstring, true, none, []⟩),
  ("description", ⟨.fstring, false, some true, []⟩),
  ("vendor", ⟨.fstring, false, some true, []⟩),
  ("homepage", ⟨.fstring, false, some false, []⟩),
  ("icon", ⟨.fstring, false, some false, []⟩),
  ("background_color", ⟨.fstring, false, some false, []⟩),
  ("app_url", ⟨.fstring, false, some true, []⟩),
  ("app_local_url", ⟨.fstring, false, some true, []⟩),
  ("service_script", ⟨.fstring, false, some false, []⟩),
  ("launch_script", ⟨.fstring, false, some false, []⟩),
  ("pre_install_script", ⟨.fstring, false, some false, []⟩),
  ("post_install_script", ⟨.fstring, false, some false, []⟩),
  ("package_type", ⟨.fstring, true, none, ["HPK"]⟩),
  ("debug_mode", ⟨.fboolean, false, some true, []⟩),
  ("assets", ⟨.farray, false, some false, []⟩),
  ("scripts", ⟨.fstring, false, some false, []⟩)]

/-- A field is "marked required/non-optional" in the schema when the source
annotates it with `required: true` or with `optional: false`. -/
def markedNonOptional (s : FieldSpec) : Bool :=
  s.required || s.opt == some false

/-- String test used by the array `items` check. -/
def isStr : JVal → Bool
  | .jstr _ => true
  | _ => false

/-- Type errors the jsonschema library reports for one present property value:
a `string` property must hold a string, a `boolean` property a boolean, and an
`array` property an array each of whose items is a string. -/
def typeErrs (t : FieldType) (v : JVal) (k : String) : List String :=
  match t, v with
  | .fstring, .jstr _ => []
  | .fboolean, .jbool _ => []
  | .farray, .jarr xs =>
    if xs.all isStr then [] else [k ++ " array items are not all strings"]
  | _, _ => [k ++ " is not of the expected type"]

/-- Enum errors for one present property value: when the schema lists enum
values, the value must be (deep-)equal to one of those strings. -/
def enumErrs (es : List String) (v : JVal) (k : String) : List String :=
  if es = [] then []
  else
    match v with
    | .jstr s => if es.contains s then [] else [k ++ " is not one of the enum values"]
    | _ => [k ++ " is not one of the enum values"]

/-- Validation of a single schema property, modelling the jsonschema library:
an absent property errs exactly when the subschema says `required: true`
(draft-03 boolean form, which the library supports); a present property is
checked against `type`, `items` and `enum`.  The `optional` annotation is not
a jsonschema keyword and the library ignores it, so it plays no role here. -/
def checkField (cfg : List (String × JVal)) (entry : String × FieldSpec) : List String :=
  match lookupJ entry.1 cfg with
  | none => if entry.2.required then [entry.1 ++ " is required"] else []
  | some v => typeErrs entry.2.ftype v entry.1 ++ enumErrs entry.2.enumVals v entry.1

/-- Models `new Validator().validate(config, SCHEMA).errors` (src/index.js
lines 209-210) for a manifest object: the concatenation of the per-property
error lists over the fixed `SCHEMA`. -/
def validate (cfg : List (String × JVal)) : List String :=
  SCHEMA.flatMap (checkField cfg)

/-! ### Filesystem model and the build pipeline -/

/-- A filesystem node: a plain file with its byte content, or a directory with
its named children in directory-listing order.  Bytes are naturals below 256;
no arithmetic is ever done on them, so no modulus is needed. -/
inductive FsNode where
  | file : List Nat → FsNode
  | dir : List (String × FsNode) → FsNode

/-- A directory listing: the children of one directory, in listing order. -/
abbrev FsDir : Type := List (String × FsNode)

/-- First entry of the listing with the given name, as the OS resolves a path
component. -/
def findEntry : List (String × FsNode) → String → Option FsNode
  | [], _ => none
  | (n, node) :: rest, k => if n = k then some node else findEntry rest k

/-- Models `fs.ensureDirSync` on a direct child of the project root: an
existing directory is kept, a missing one is created (appended to the
listing), and an existing plain file of that name makes the call throw
(`none`). -/
def ensureDir (root : FsDir) (name : String) : Option FsDir :=
  match findEntry root name with
  | some (.dir _) => some root
  | some (.file _) => none
  | none => some (root ++ [(name, .dir [])])

/-- Dropping the child named `child` from a directory node (no effect on a
plain file). -/
def removeChildNode (child : String) : FsNode → FsNode
  | .dir cs => .dir (cs.filter fun c => c.1 ≠ child)
  | other => other

/-- Models `if (fs.existsSync(p)) fs.removeSync(p)` for `p = <dirName>/<child>`:
the directory entry called `dirName` loses any child called `child` (when no
such child exists this is the identity, matching the guarded remove). -/
def removeChild (root : FsDir) (dirName child : String) : FsDir :=
  root.map fun e => (e.1, if e.1 = dirName then removeChildNode child e.2 else e.2)

/-- Creating or truncating the child file named `child` inside a directory
node: any previous child of that name is dropped and the fresh file is
appended to the listing. -/
def writeChildNode (child : String) (bytes : List Nat) : FsNode → FsNode
  | .dir cs => .dir ((cs.filter fun c => c.1 ≠ child) ++ [(child, .file bytes)])
  | other => other

/-- Models writing a file `<dirName>/<child>` with the given bytes
(`fs.createWriteStream` / tar's output file) inside the listing `root`. -/
def writeChild (root : FsDir) (dirName child : String) (bytes : List Nat) : FsDir :=
  root.map fun e => (e.1, if e.1 = dirName then writeChildNode child bytes e.2 else e.2)

/-- The directory-collection loop of src/index.js lines 157-173, as a function
of the project root's listing.  Paths are lists of name components relative to
the project root.  A top-level entry named `node_modules` is skipped before
anything else; a top-level directory contributes its immediate plain-file
children; any other top-level entry is a plain file and is included itself. -/
def collectFiles (entries : List (String × FsNode)) : List (List String) :=
  entries.flatMap fun e =>
    if e.1 = "node_modules" then []
    else
      match e.2 with
      | .dir cs =>
        cs.filterMap fun c =>
          match c.2 with
          | .file _ => some [e.1, c.1]
          | .dir _ => none
      | .file _ => [[e.1]]

/-- Reads the bytes of a collected path (one or two components deep) from the
project root, as tar does when packing; a dangling path reads as `none`. -/
def readFileAt (root : FsDir) : List String → Option (List Nat)
  | [n] =>
    match findEntry root n with
    | some (.file bs) => some bs
    | _ => none
  | [d, n] =>
    match findEntry root d with
    | some (.dir cs) =>
      match findEntry cs n with
      | some (.file bs) => some bs
      | _ => none
    | _ => none
  | _ => none

/-- UTF-8 encoding of one character, written out so every byte-level statement
is executable. -/
def utf8Char (c : Char) : List Nat :=
  let n := c.toNat
  if n < 128 then [n]
  else if n < 2048 then [192 + n / 64, 128 + n % 64]
  else if n < 65536 then [224 + n / 4096, 128 + (n / 64) % 64, 128 + n % 64]
  else [240 + n / 262144, 128 + (n / 4096) % 64, 128 + (n / 64) % 64, 128 + n % 64]

/-- UTF-8 bytes of a string, the encoding a Node write stream uses for string
chunks. -/
def utf8Bytes (s : String) : List Nat :=
  s.data.flatMap utf8Char

/-- Models the byte output of the external gzip-tar library (`tar.c`) on a
member list (paths with their contents).  The repository treats this payload
as a black box: it is written to the tmp file, read back whole, and framed
verbatim, so any fixed encoding of the members serves; none of the theorems
below depend on its shape. -/
def tarEncode (members : List (List String × List Nat)) : List Nat :=
  members.flatMap fun m => (m.1.flatMap fun seg => utf8Bytes seg ++ [0]) ++ [1] ++ m.2 ++ [2]

/-- The tool's own version constant, `let version = 'v1.0.1'` (src/index.js
line 13). -/
def toolVersion : String := "v1.0.1"

/-- The header template of src/index.js line 183: note it interpolates
`config.version`, the manifest's version field. -/
def headerStr (pkg ver : String) : String :=
  "# Start of " ++ pkg ++ "\n# Packaged by homeview-cli " ++ ver ++ "\n"

/-- The footer template of src/index.js line 186. -/
def footerStr (pkg : String) : String :=
  "# End of " ++ pkg ++ "\n"

/-- The bytes the archive stream receives in order: the UTF-8 header, the tar
payload verbatim, the UTF-8 footer (src/index.js lines 181-188). -/
def hpkBytes (pkg ver : String) (payload : List Nat) : List Nat :=
  utf8Bytes (headerStr pkg ver) ++ payload ++ utf8Bytes (footerStr pkg)

/-- Name of the temporary tarball, `` `${package_name}_package.tmp` ``. -/
def tmpName (pkg : String) : String := pkg ++ "_package.tmp"

/-- Name of the final archive, `` `${package_name}.hpk` ``. -/
def hpkName (pkg : String) : String := pkg ++ ".hpk"

/-- The preparatory filesystem steps of `buildThread` (src/index.js lines
149-155): ensure `build/` exists, then remove any stale tmp file and any stale
final archive at the target paths.  `none` when `ensureDirSync` throws because
`build` exists as a plain file. -/
def prepare (root : FsDir) (pkg : String) : Option FsDir :=
  (ensureDir root "build").map fun r =>
    removeChild (removeChild r "build" (tmpName pkg)) "build" (hpkName pkg)

/-- The file list `buildThread` passes to the tar packer: the collection loop
run on the prepared project root (which now contains the `build/` directory,
cleaned of the two target files). -/
def collectedForBuild (pkg : String) (root : FsDir) : List (List String) :=
  match prepare root pkg with
  | some r => collectFiles r
  | none => []

/-- Faults injected at the throwing steps of `buildThread`: `ok` is the
fault-free run, `tarFail` makes `createTarball` reject (an unreadable file or
write error), and `cleanupFail` makes the `fs.removeSync(tarballPath)` after
framing throw.  Every fault is caught by `startBuild`'s `catch` and reported
as a failed build. -/
inductive BuildFault where
  | ok
  | tarFail
  | cleanupFail

/-- Result of one `buildThread` run: `some size` on success (`none` when the
thrown error was caught by the orchestrator) together with the final state of
the project root. -/
structure BuildResult where
  sizeOut : Option Nat
  fs : FsDir

/-- The tar member list: each collected path with the bytes the packer reads
for it from the prepared project root. -/
def membersOf (r : FsDir) : List (List String × List Nat) :=
  (collectFiles r).map fun p => (p, (readFileAt r p).getD [])

/-- The build pipeline of src/index.js lines 144-195 on the explicit
filesystem: prepare `build/`, collect the file list, pack it into the tmp
tarball, read the tarball back, write header + payload + footer to the
archive, remove the tmp file, and return the archive's size. -/
def buildThread (pkg ver : String) (fault : BuildFault) (root : FsDir) : BuildResult :=
  match prepare root pkg with
  | none => ⟨none, root⟩
  | some r =>
    match fault with
    | .tarFail => ⟨none, r⟩
    | f =>
      let tarBytes := tarEncode (membersOf r)
      let r2 := writeChild r "build" (tmpName pkg) tarBytes
      let out := hpkBytes pkg ver tarBytes
      let r3 := writeChild r2 "build" (hpkName pkg) out
      match f with
      | .cleanupFail => ⟨none, r3⟩
      | _ => ⟨some out.length, removeChild r3 "build" (tmpName pkg)⟩

/-- The children of the `build/` directory in a root listing (empty when there
is no such directory). -/
def buildChildren (root : FsDir) : List (String × FsNode) :=
  match findEntry root "build" with
  | some (.dir cs) => cs
  | _ => []

/-- Models `toFixed(2)` of the exact quotient `num / den`: the ECMAScript
operator picks the integer closest to `x * 100`, preferring the larger one on
a tie, then prints it with two forced decimals.  For `den` a power of two and
`num < 2^53` the JavaScript double holds `num / den` exactly, so this integer
arithmetic reproduces the source's floating-point display. -/
def toFixed2 (num den : Nat) : String :=
  let q := (200 * num + den) / (2 * den)
  toString (q / 100) ++ "." ++ (if q % 100 < 10 then "0" ++ toString (q % 100) else toString (q % 100))

/-- The size report of src/index.js lines 255-257: megabytes at or above one
MiB, kilobytes below, both with two decimals. -/
def formatSize (n : Nat) : String :=
  if 1024 * 1024 ≤ n then toFixed2 n (1024 * 1024) ++ " MB"
  else toFixed2 n 1024 ++ " KB"

/-- String coercion a JS template literal applies to a manifest field, as used
for `${config.package_name}` and `${config.version}`; validated manifests
always hit the `jstr` case. -/
def strField (cfg : List (String × JVal)) (k : String) : String :=
  match lookupJ k cfg with
  | some (.jstr s) => s
  | _ => "undefined"

/-- Outcome of the `build` CLI command. -/
inductive CmdOutcome where
  | abortedMissing
  | abortedInvalid
  | built : Option Nat → CmdOutcome

/-- The `build` command action (src/index.js lines 305-312): `loadConfig`
first — missing file or a non-empty validation error list calls
`process.exit(1)` before any filesystem mutation — and only then `startBuild`,
which runs `buildThread` (its own `ensureDirSync(buildPath)` on line 230 is
the same idempotent step `buildThread` repeats on line 149). -/
def buildCommand (cfg : Option (List (String × JVal))) (fault : BuildFault) (root : FsDir) :
    CmdOutcome × FsDir :=
  match cfg with
  | none => (.abortedMissing, root)
  | some c =>
    if validate c = [] then
      let r := buildThread (strField c "package_name") (strField c "version") fault root
      (.built r.sizeOut, r.fs)
    else (.abortedInvalid, root)

/-! ### JSON persistence (`saveConfig` / `loadConfig` round trip)

`saveConfig` is `fs.writeJsonSync(filePath, config, { spaces: 2 })`, i.e.
`JSON.stringify(config, null, 2)` plus a trailing newline; `loadConfig` reads
the file back with `JSON.parse`.  Both are external library calls, modelled
here from the ECMAScript specification of `JSON.stringify` / `JSON.parse`,
restricted to the flat manifests the tool actually produces. -/

/-- Lowercase hexadecimal digit, as `JSON.stringify` prints unicode escapes. -/
def hexDig (n : Nat) : Char :=
  if n < 10 then Char.ofNat (48 + n) else Char.ofNat (87 + n)

/-- Value of a hexadecimal digit character accepted by `JSON.parse`. -/
def hexVal (c : Char) : Option Nat :=
  if 48 ≤ c.toNat ∧ c.toNat ≤ 57 then some (c.toNat - 48)
  else if 97 ≤ c.toNat ∧ c.toNat ≤ 102 then some (c.toNat - 87)
  else if 65 ≤ c.toNat ∧ c.toNat ≤ 70 then some (c.toNat - 55)
  else none

/-- The character escaping of `JSON.stringify` (ECMAScript QuoteJSONString):
quote and backslash get a backslash escape, the five named control characters
get their short escapes, the remaining control characters below space get a
four-digit unicode escape, and everything else is emitted verbatim. -/
def escChar (c : Char) : List Char :=
  if c = '"' then ['\\', '"']
  else if c = '\\' then ['\\', '\\']
  else if c = '\x08' then ['\\', 'b']
  else if c = '\t' then ['\\', 't']
  else if c = '\n' then ['\\', 'n']
  else if c = '\x0c' then ['\\', 'f']
  else if c = '\r' then ['\\', 'r']
  else if c.toNat < 32 then ['\\', 'u', '0', '0', hexDig (c.toNat / 16), hexDig (c.toNat % 16)]
  else [c]

/-- A JSON string literal: quote, escaped characters, quote. -/
def quoteChars (s : String) : List Char :=
  '"' :: (s.data.flatMap escChar ++ ['"'])

/-- The values occurring in a manifest produced by the interactive flow: the
prompt answers are strings and booleans, and the fill-in loop adds empty
strings and the empty `assets` array (src/index.js lines 135-139). -/
inductive FlatVal where
  | fstr : String → FlatVal
  | fbool : Bool → FlatVal
  | femptyArr
deriving DecidableEq

/-- The JSON value of a produced manifest field. -/
def toJVal : FlatVal → JVal
  | .fstr s => .jstr s
  | .fbool b => .jbool b
  | .femptyArr => .jarr []

/-- Rendering of one produced value by `JSON.stringify`. -/
def renderFlatVal : FlatVal → List Char
  | .fstr s => quoteChars s
  | .fbool true => ['t', 'r', 'u', 'e']
  | .fbool false => ['f', 'a', 'l', 's', 'e']
  | .femptyArr => ['[', ']']

/-- One `  "key": value` line of the 2-space pretty printing. -/
def renderField (kv : String × FlatVal) : List Char :=
  [' ', ' '] ++ quoteChars kv.1 ++ [':', ' '] ++ renderFlatVal kv.2

/-- The comma-newline separated field lines. -/
def renderFields : List (String × FlatVal) → List Char
  | [] => []
  | [kv] => renderField kv
  | kv :: rest => renderField kv ++ [',', '\n'] ++ renderFields rest

/-- The file content `writeJsonSync(filePath, config, { spaces: 2 })` writes
for a flat manifest: `JSON.stringify(config, null, 2)` followed by the
trailing newline jsonfile appends. -/
def renderManifest : List (String × FlatVal) → List Char
  | [] => ['{', '}', '\n']
  | m => ['{', '\n'] ++ (renderFields m ++ ['\n', '}', '\n'])

/-- JSON insignificant whitespace. -/
def isWs (c : Char) : Bool :=
  c = ' ' || c = '\n' || c = '\t' || c = '\r'

/-- Skip insignificant whitespace, as `JSON.parse` does between tokens. -/
def skipWs : List Char → List Char
  | [] => []
  | c :: cs => if isWs c then skipWs cs else c :: cs

/-- Body of a JSON string literal after its opening quote, as `JSON.parse`
reads it: characters up to the unescaped closing quote, decoding the escape
sequences `JSON.stringify` can emit (plus the `\/` escape of the grammar). -/
def parseStrTail : List Char → Option (List Char × List Char)
  | [] => none
  | c :: cs =>
    if c = '"' then some ([], cs)
    else if c = '\\' then
      match cs with
      | [] => none
      | d :: cs2 =>
        if d = '"' then (parseStrTail cs2).map fun p => ('"' :: p.1, p.2)
        else if d = '\\' then (parseStrTail cs2).map fun p => ('\\' :: p.1, p.2)
        else if d = '/' then (parseStrTail cs2).map fun p => ('/' :: p.1, p.2)
        else if d = 'b' then (parseStrTail cs2).map fun p => ('\x08' :: p.1, p.2)
        else if d = 't' then (parseStrTail cs2).map fun p => ('\t' :: p.1, p.2)
        else if d = 'n' then (parseStrTail cs2).map fun p => ('\n' :: p.1, p.2)
        else if d = 'f' then (parseStrTail cs2).map fun p => ('\x0c' :: p.1, p.2)
        else if d = 'r' then (parseStrTail cs2).map fun p => ('\r' :: p.1, p.2)
        else if d = 'u' then
          match cs2 with
          | a :: b :: c2 :: e :: cs3 =>
            match hexVal a, hexVal b, hexVal c2, hexVal e with
            | some ha, some hb, some hc, some he =>
              (parseStrTail cs3).map fun p =>
                (Char.ofNat (((ha * 16 + hb) * 16 + hc) * 16 + he) :: p.1, p.2)
            | _, _, _, _ => none
          | _ => none
        else none
    else (parseStrTail cs).map fun p => (c :: p.1, p.2)

/-- One JSON value of the produced sublanguage (string, boolean, or the empty
array), read at a position where whitespace has been skipped.  This is
`JSON.parse`'s value grammar restricted to the forms `writeJsonSync` emits for
tool-produced manifests, which are the only inputs the theorems feed it. -/
def parseFlatVal : List Char → Option (FlatVal × List Char)
  | '"' :: cs => (parseStrTail cs).map fun p => (.fstr ⟨p.1⟩, p.2)
  | 't' :: 'r' :: 'u' :: 'e' :: cs => some (.fbool true, cs)
  | 'f' :: 'a' :: 'l' :: 's' :: 'e' :: cs => some (.fbool false, cs)
  | '[' :: cs =>
    match skipWs cs with
    | ']' :: rest => some (.femptyArr, rest)
    | _ => none
  | _ => none

/-- The members of a JSON object, from after the opening brace up to and past
the closing brace.  The fuel only bounds the number of members; callers pass
the input length, which always suffices since every member consumes input. -/
def parseFields : Nat → List Char → Option (List (String × FlatVal) × List Char)
  | 0, _ => none
  | fuel + 1, cs =>
    match skipWs cs with
    | '"' :: cs1 =>
      match parseStrTail cs1 with
      | none => none
      | some (kchars, cs2) =>
        match skipWs cs2 with
        | ':' :: cs3 =>
          match parseFlatVal (skipWs cs3) with
          | none => none
          | some (v, cs4) =>
            match skipWs cs4 with
            | ',' :: cs5 => (parseFields fuel cs5).map fun p => ((⟨kchars⟩, v) :: p.1, p.2)
            | '}' :: cs5 => some ([(⟨kchars⟩, v)], cs5)
            | _ => none
        | _ => none
    | _ => none

/-- Models `readJsonSync` = `JSON.parse` of a whole file holding one flat
object: the object (empty `{}` or a member list) must be the only token
sequence, up to whitespace. -/
def parseManifest (input : List Char) : Option (List (String × FlatVal)) :=
  match skipWs input with
  | '{' :: cs =>
    if (skipWs cs).head? = some '}' then
      if (skipWs (skipWs cs).tail).isEmpty then some [] else none
    else
      match parseFields (input.length + 1) cs with
      | some (fields, rest) => if (skipWs rest).isEmpty then some fields else none
      | none => none
  | _ => none

/-- The interactive answers the prompt flow collects (src/index.js lines
51-120): free-text answers for the prompted string fields, the `app type`
selection, and the `debug mode` toggle.  `package_type` is a select whose only
choice is `HPK`, so it needs no answer field. -/
structure Answers where
  app_name : String
  package_name : String
  version : String
  description : String
  vendor : String
  appTypeOnline : Bool
  debug_mode : Bool

/-- Key-presence test, `key in result`. -/
def hasKeyF (l : List (String × FlatVal)) (k : String) : Bool :=
  l.any fun e => e.1 == k

/-- The manifest object `gatherAppInfo` returns (src/index.js lines 122-141)
as a function of the interactive answers.  The prompted fields arrive in
prompt order (the injected `app_type` select lands right before `debug_mode`
because `findIndex` returns `-1` for the never-added `app_url` prompt and
`splice(-1, ...)` inserts before the last element); when `app_type` is
`online` the two url fields are set (`responses.type` on line 130 is always
`undefined`, so the `offline` branch never fires); finally every schema key
still missing is filled with `[]` for arrays and `''` otherwise. -/
def gatherAppInfo (a : Answers) : List (String × FlatVal) :=
  let responses : List (String × FlatVal) := [
    ("app_name", .fstr a.app_name),
    ("package_name", .fstr a.package_name),
    ("version", .fstr a.version),
    ("description", .fstr a.description),
    ("vendor", .fstr a.vendor),
    ("package_type", .fstr "HPK"),
    ("app_type", .fstr (if a.appTypeOnline then "online" else "offline")),
    ("debug_mode", .fbool a.debug_mode)]
  let withUrls :=
    if a.appTypeOnline then
      responses ++ [("app_url", .fstr ""), ("app_local_url", .fstr "<does-not-apply>")]
    else responses
  withUrls ++ SCHEMA.filterMap fun e =>
    if hasKeyF withUrls e.1 then none
    else some (e.1, if e.2.ftype = .farray then FlatVal.femptyArr else .fstr "")

/-! ### Claim-side definitions

These two predicates follow the words of claim C5, not the source; the first
is the claim as stated, the second the amended statement compared against the
source-derived `collectFiles`. -/

/-- Collected-list membership as claim C5 words it: the top-level plain files
of the root, plus, for each top-level subdirectory, its immediate children
that are plain files. -/
def specMemberC5 (entries : FsDir) (p : List String) : Prop :=
  (∃ n c, p = [n] ∧ (n, FsNode.file c) ∈ entries) ∨
  (∃ d cs n c, p = [d, n] ∧ (d, FsNode.dir cs) ∈ entries ∧ (n, FsNode.file c) ∈ cs)

/-- The amended form of claim C5's membership: the same two clauses, with the
top-level `node_modules` exclusion the claim omitted. -/
def specMemberC5Amended (entries : FsDir) (p : List String) : Prop :=
  (∃ n c, p = [n] ∧ n ≠ "node_modules" ∧ (n, FsNode.file c) ∈ entries) ∨
  (∃ d cs n c, p = [d, n] ∧ d ≠ "node_modules" ∧ (d, FsNode.dir cs) ∈ entries ∧
    (n, FsNode.file c) ∈ cs)

/-! ### Helper lemmas -/

/-- A successful `findEntry` exhibits a listing member. -/
theorem findEntry_mem {l : List (String × FsNode)} {k : String} {v : FsNode}
    (h : findEntry l k = some v) : (k, v) ∈ l := by
  induction l with
  | nil => simp [findEntry] at h
  | cons e rest ih =>
    obtain ⟨n, node⟩ := e
    unfold findEntry at h
    by_cases hn : n = k
    · rw [if_pos hn] at h
      injection h with h
      subst hn h
      exact List.mem_cons_self _ _
    · rw [if_neg hn] at h
      exact List.mem_cons_of_mem _ (ih h)

/-- Collected-list membership computed: exactly the non-`node_modules`
top-level plain files and the plain-file children of non-`node_modules`
top-level directories. -/
theorem collect_mem_iff (entries : FsDir) (p : List String) :
    p ∈ collectFiles entries ↔ specMemberC5Amended entries p := by
  unfold collectFiles specMemberC5Amended
  rw [List.mem_flatMap]
  constructor
  · rintro ⟨⟨n, node⟩, hmem, hp⟩
    by_cases hn : n = "node_modules"
    · simp [hn] at hp
    · cases node with
      | file c =>
        simp only [hn, if_false, List.mem_singleton] at hp
        exact Or.inl ⟨n, c, hp, hn, hmem⟩
      | dir cs =>
        simp only [hn, if_false, List.mem_filterMap] at hp
        obtain ⟨⟨m, cnode⟩, hcmem, hcp⟩ := hp
        cases cnode with
        | file cc =>
          simp only [Option.some_inj] at hcp
          exact Or.inr ⟨n, cs, m, cc, hcp.symm, hn, hmem, hcmem⟩
        | dir _ => simp at hcp
  · rintro (⟨n, c, rfl, hn, hmem⟩ | ⟨d, cs, m, c, rfl, hd, hmem, hcmem⟩)
    · exact ⟨(n, .file c), hmem, by simp [hn]⟩
    · refine ⟨(d, .dir cs), hmem, ?_⟩
      simp only [hd, if_false]
      exact List.mem_filterMap.mpr ⟨(m, .file c), hcmem, rfl⟩

/-- A schema entry whose check errs makes the whole validation err. -/
theorem validate_ne_nil {cfg : List (String × JVal)} {k : String} {s : FieldSpec}
    (hk : (k, s) ∈ SCHEMA) (h : checkField cfg (k, s) ≠ []) : validate cfg ≠ [] := by
  obtain ⟨e, he⟩ := List.exists_mem_of_ne_nil _ h
  exact List.ne_nil_of_mem (List.mem_flatMap.mpr ⟨(k, s), hk, he⟩)

/-- An invalid manifest makes the `build` command abort with the filesystem
untouched. -/
theorem buildCommand_aborts {cfg : List (String × JVal)} (fault : BuildFault) (root : FsDir)
    (h : validate cfg ≠ []) :
    buildCommand (some cfg) fault root = (.abortedInvalid, root) := by
  show (if validate cfg = [] then _ else (CmdOutcome.abortedInvalid, root))
      = (CmdOutcome.abortedInvalid, root)
  rw [if_neg h]

/-! ### Claims C4, C5, C9 -/

/-- C4: for every project directory containing a top-level entry named exactly
`node_modules`, the collector skips that entry entirely, so no path under the
top-level `node_modules` folder appears in the collected file list, nor in the
member list handed to the tar packer for the archive. -/
theorem c4_collect_excludes_node_modules (entries : FsDir) (pkg : String) (p : List String)
    (h : p ∈ collectFiles entries ∨ p ∈ collectedForBuild pkg entries) :
    p.head? ≠ some "node_modules" := by
  have key : ∀ es : FsDir, p ∈ collectFiles es → p.head? ≠ some "node_modules" := by
    intro es hp
    rcases (collect_mem_iff es p).mp hp with ⟨n, c, rfl, hn, -⟩ | ⟨d, cs, m, c, rfl, hd, -, -⟩
    · simpa using hn
    · simpa using hd
  rcases h with hp | hp
  · exact key _ hp
  · unfold collectedForBuild at hp
    cases hpre : prepare entries pkg with
    | none => rw [hpre] at hp; simp at hp
    | some r => rw [hpre] at hp; exact key _ hp

/-- C4 witness: a concrete project with a populated `node_modules` and a
`src/app.js`; the collected path `["src", "app.js"]` is not under
`node_modules`. -/
theorem c4_collect_excludes_node_modules_witness :
    (["src", "app.js"] ∈ collectFiles
      [("node_modules", .dir [("dep.js", .file [7])]), ("src", .dir [("app.js", .file [1])])]
      ∨ ["src", "app.js"] ∈ collectedForBuild "p"
      [("node_modules", .dir [("dep.js", .file [7])]), ("src", .dir [("app.js", .file [1])])])
    ∧ (["src", "app.js"].head? ≠ some "node_modules") :=
  ⟨Or.inl (by decide),
   c4_collect_excludes_node_modules
     [("node_modules", .dir [("dep.js", .file [7])]), ("src", .dir [("app.js", .file [1])])]
     "p" ["src", "app.js"] (Or.inl (by decide))⟩

/-- C5 counterexample: the claim omits the `node_modules` exclusion, so for
the project holding only a top-level `node_modules` directory with one plain
file, the path `["node_modules", "a.txt"]` is in the claim's "exact" list but
not in the collected list. -/
theorem c5_counterexample :
    specMemberC5 [("node_modules", .dir [("a.txt", .file [])])] ["node_modules", "a.txt"]
    ∧ ["node_modules", "a.txt"] ∉
        collectFiles [("node_modules", .dir [("a.txt", .file [])])] := by
  constructor
  · exact Or.inr ⟨"node_modules", [("a.txt", .file [])], "a.txt", [], rfl,
      List.mem_singleton.mpr rfl, List.mem_singleton.mpr rfl⟩
  · intro h
    have hnil : collectFiles [("node_modules", .dir [("a.txt", .file [])])]
        = ([] : List (List String)) := rfl
    rw [hnil] at h
    exact List.not_mem_nil _ h

/-- C5 (amended): the collected file list consists of exactly the top-level
plain files of the root other than one named `node_modules`, plus, for each
top-level subdirectory not named `node_modules`, its immediate children that
are plain files; depth-two directories are never descended into, so grandchild
files never appear. -/
theorem c5_collect_exact (entries : FsDir) (p : List String) :
    p ∈ collectFiles entries ↔ specMemberC5Amended entries p :=
  collect_mem_iff entries p

/-- C5 witness: the amended membership applied at a concrete tree, both ways:
a depth-two file is collected and the grandchild file of a nested directory is
not. -/
theorem c5_collect_exact_witness :
    specMemberC5Amended [("src", .dir [("a.js", .file [2]), ("deep", .dir [("g", .file [])])])]
      ["src", "a.js"]
    ∧ ¬ specMemberC5Amended
      [("src", .dir [("a.js", .file [2]), ("deep", .dir [("g", .file [])])])]
      ["src", "deep", "g"] :=
  ⟨(c5_collect_exact _ _).mp (by decide),
   fun h => by
    have := (c5_collect_exact
      [("src", .dir [("a.js", .file [2]), ("deep", .dir [("g", .file [])])])]
      ["src", "deep", "g"]).mpr h
    exact absurd this (by decide)⟩

/-- C9: `build/` is created inside the project root before file collection and
is not excluded, so any leftover plain file inside `build/` other than the two
freshly removed target files is part of the file list handed to the packer,
hence of the produced archive. -/
theorem c9_leftover_build_files_archived (root : FsDir) (pkg : String)
    (cs : List (String × FsNode)) (name : String) (content : List Nat)
    (hfind : findEntry root "build" = some (.dir cs))
    (hmem : (name, FsNode.file content) ∈ cs)
    (h1 : name ≠ tmpName pkg) (h2 : name ≠ hpkName pkg) :
    ["build", name] ∈ collectedForBuild pkg root := by
  have hens : ensureDir root "build" = some root := by
    unfold ensureDir
    rw [hfind]
  have hprep : prepare root pkg =
      some (removeChild (removeChild root "build" (tmpName pkg)) "build" (hpkName pkg)) := by
    unfold prepare
    rw [hens, Option.map_some']
  unfold collectedForBuild
  rw [hprep]
  have hmem1 : ("build", FsNode.dir (cs.filter fun c => c.1 ≠ tmpName pkg)) ∈
      removeChild root "build" (tmpName pkg) := by
    unfold removeChild
    exact List.mem_map.mpr ⟨("build", .dir cs), findEntry_mem hfind, rfl⟩
  have hmem2 : ("build", FsNode.dir (((cs.filter fun c => c.1 ≠ tmpName pkg)).filter
      fun c => c.1 ≠ hpkName pkg)) ∈
      removeChild (removeChild root "build" (tmpName pkg)) "build" (hpkName pkg) := by
    unfold removeChild
    exact List.mem_map.mpr ⟨_, hmem1, rfl⟩
  refine (collect_mem_iff _ _).mpr (Or.inr ⟨"build", _, name, content, rfl, by decide, hmem2, ?_⟩)
  exact List.mem_filter.mpr ⟨List.mem_filter.mpr ⟨hmem, by simpa using h1⟩, by simpa using h2⟩

/-- C9 witness: a leftover `build/old.log` from an earlier build is collected
into the new archive's member list. -/
theorem c9_leftover_build_files_archived_witness :
    ["build", "old.log"] ∈ collectedForBuild "p" [("build", .dir [("old.log", .file [5])])] :=
  c9_leftover_build_files_archived [("build", .dir [("old.log", .file [5])])] "p"
    [("old.log", .file [5])] "old.log" [5] rfl (List.mem_singleton.mpr rfl)
    (by decide) (by decide)

/-! ### Claims C1, C6 (validation and abort) -/

/-- C1 counterexample: `homepage` is marked non-optional (`optional: false`)
and `app_name` is whitespace-only, yet the manifest below validates with an
empty error list — the jsonschema library ignores the `optional` annotation
and `required` only tests presence, never trimmed emptiness.  The claim's
"non-empty error list" fails at this input. -/
theorem c1_counterexample :
    ("homepage", (⟨.fstring, false, some false, []⟩ : FieldSpec)) ∈ SCHEMA
    ∧ markedNonOptional ⟨.fstring, false, some false, []⟩ = true
    ∧ lookupJ "homepage" [("app_name", .jstr " "), ("package_name", .jstr "p"),
        ("version", .jstr "1.0.0"), ("package_type", .jstr "HPK")] = none
    ∧ lookupJ "app_name" [("app_name", .jstr " "), ("package_name", .jstr "p"),
        ("version", .jstr "1.0.0"), ("package_type", .jstr "HPK")] = some (.jstr " ")
    ∧ validate [("app_name", .jstr " "), ("package_name", .jstr "p"),
        ("version", .jstr "1.0.0"), ("package_type", .jstr "HPK")] = [] :=
  ⟨by decide, by decide, rfl, rfl, by decide⟩

/-- C1 (amended): for every manifest in which one of the four fields annotated
`required: true` in the schema (`app_name`, `package_name`, `version`,
`package_type`) is absent, validation returns a non-empty error list and the
build command aborts before creating or modifying anything under the project
root; fields merely annotated `optional: false` and whitespace-only strings
are not flagged. -/
theorem c1_missing_required_aborts (cfg : List (String × JVal)) (root : FsDir)
    (fault : BuildFault) (k : String) (s : FieldSpec)
    (hk : (k, s) ∈ SCHEMA) (hreq : s.required = true) (habs : lookupJ k cfg = none) :
    validate cfg ≠ [] ∧ buildCommand (some cfg) fault root = (.abortedInvalid, root) := by
  have hcf : checkField cfg (k, s) ≠ [] := by
    unfold checkField
    rw [habs]
    simp [hreq]
  have hv := validate_ne_nil hk hcf
  exact ⟨hv, buildCommand_aborts fault root hv⟩

/-- C1 witness: a manifest missing `app_name` errs and the build command
leaves the filesystem untouched. -/
theorem c1_missing_required_aborts_witness :
    validate [("package_name", .jstr "p"), ("version", .jstr "1.0.0"),
      ("package_type", .jstr "HPK")] ≠ []
    ∧ buildCommand (some [("package_name", .jstr "p"), ("version", .jstr "1.0.0"),
        ("package_type", .jstr "HPK")]) .ok [] = (.abortedInvalid, []) :=
  c1_missing_required_aborts [("package_name", .jstr "p"), ("version", .jstr "1.0.0"),
    ("package_type", .jstr "HPK")] [] .ok "app_name" ⟨.fstring, true, none, []⟩
    (by decide) rfl rfl

/-- C6: for every manifest whose `package_type` field is present but not the
string literal `"HPK"`, validation fails with a non-empty error list and the
build command aborts with the filesystem untouched. -/
theorem c6_package_type_enum (cfg : List (String × JVal)) (v : JVal) (root : FsDir)
    (fault : BuildFault)
    (hv : lookupJ "package_type" cfg = some v) (hne : v ≠ .jstr "HPK") :
    validate cfg ≠ [] ∧ buildCommand (some cfg) fault root = (.abortedInvalid, root) := by
  have hcf : checkField cfg ("package_type", ⟨.fstring, true, none, ["HPK"]⟩) ≠ [] := by
    unfold checkField
    rw [hv]
    intro hap
    have hen : enumErrs ["HPK"] v "package_type" = [] := by
      rcases List.append_eq_nil.mp hap with ⟨-, h2⟩
      exact h2
    unfold enumErrs at hen
    cases v with
    | jstr s =>
      have hs : s ≠ "HPK" := fun hs => hne (by rw [hs])
      simp [List.contains, hs] at hen
    | jbool b => simp at hen
    | jnum i => simp at hen
    | jnull => simp at hen
    | jarr xs => simp at hen
    | jobj fs => simp at hen
  have hv' := validate_ne_nil (by decide) hcf
  exact ⟨hv', buildCommand_aborts fault root hv'⟩

/-- C6 witness: `package_type = "ZIP"` is rejected and nothing is built. -/
theorem c6_package_type_enum_witness :
    validate [("app_name", .jstr "a"), ("package_name", .jstr "p"),
      ("version", .jstr "1.0.0"), ("package_type", .jstr "ZIP")] ≠ []
    ∧ buildCommand (some [("app_name", .jstr "a"), ("package_name", .jstr "p"),
        ("version", .jstr "1.0.0"), ("package_type", .jstr "ZIP")]) .ok []
      = (.abortedInvalid, []) :=
  c6_package_type_enum [("app_name", .jstr "a"), ("package_name", .jstr "p"),
    ("version", .jstr "1.0.0"), ("package_type", .jstr "ZIP")] (.jstr "ZIP") [] .ok
    rfl (by simp)

/-! ### Claim C7 (size reporting) -/

/-- C7: the reported size string is `n / 1048576` with two decimals plus
" MB" at or above one MiB, and `n / 1024` with two decimals plus " KB" below;
in particular 2097152 bytes report as "2.00 MB" and 1536 bytes as "1.50 KB".
The hypothesis `n < 2^53` is the range in which the JavaScript double holds
the quotient by a power of two exactly, so the integer model of `toFixed(2)`
coincides with the source. -/
theorem c7_size_report (n : Nat) (h : n < 2 ^ 53) :
    (1048576 ≤ n → formatSize n = toFixed2 n 1048576 ++ " MB")
    ∧ (n < 1048576 → formatSize n = toFixed2 n 1024 ++ " KB")
    ∧ formatSize 2097152 = "2.00 MB" ∧ formatSize 1536 = "1.50 KB" := by
  refine ⟨fun hge => ?_, fun hlt => ?_, by decide, by decide⟩
  · unfold formatSize
    rw [if_pos (by omega : 1024 * 1024 ≤ n)]
  · unfold formatSize
    rw [if_neg (by omega : ¬ 1024 * 1024 ≤ n)]

/-- C7 witness: the two boundary examples obtained through the theorem. -/
theorem c7_size_report_witness :
    formatSize 2097152 = "2.00 MB" ∧ formatSize 1536 = "1.50 KB" :=
  ⟨(c7_size_report 2097152 (by decide)).2.2.1, (c7_size_report 1536 (by decide)).2.2.2⟩

/-! ### Claim C10 (header version provenance) -/

/-- C10: the version in the header line is the manifest's `version` field, not
the tool's own `version` constant: for any manifest version different from the
tool version, the header embeds the manifest version and differs from the
header the tool version would have produced. -/
theorem c10_header_uses_manifest_version (p v : String) (h : v ≠ toolVersion) :
    headerStr p v = "# Start of " ++ p ++ "\n# Packaged by homeview-cli " ++ v ++ "\n"
    ∧ headerStr p v ≠ headerStr p toolVersion := by
  refine ⟨rfl, fun he => h ?_⟩
  have hd := congrArg String.data he
  unfold headerStr at hd
  simp only [String.data_append, List.append_assoc] at hd
  have h1 := List.append_cancel_left hd
  have h2 := List.append_cancel_left h1
  have h3 := List.append_cancel_left h2
  exact String.ext (List.append_cancel_right h3)

/-- C10 witness: a manifest version `2.0.0` lands in the header even though
the tool itself is `v1.0.1`. -/
theorem c10_header_uses_manifest_version_witness :
    headerStr "demo" "2.0.0"
      = "# Start of " ++ "demo" ++ "\n# Packaged by homeview-cli " ++ "2.0.0" ++ "\n"
    ∧ headerStr "demo" "2.0.0" ≠ headerStr "demo" toolVersion :=
  c10_header_uses_manifest_version "demo" "2.0.0" (by decide)

/-! ### Lookup lemmas for the build pipeline -/

/-- Lookup through a key-preserving map transforming each node according to
its key. -/
theorem findEntry_mapIf (g : FsNode → FsNode) (d : String) (l : FsDir) (k : String) :
    findEntry (l.map fun e => (e.1, if e.1 = d then g e.2 else e.2)) k
      = (findEntry l k).map fun node => if k = d then g node else node := by
  induction l with
  | nil => rfl
  | cons e rest ih =>
    obtain ⟨n, node⟩ := e
    by_cases hn : n = k
    · subst hn
      simp [findEntry]
    · simp [findEntry, hn, ih]

/-- Lookup in `removeChild` output. -/
theorem findEntry_removeChild (root : FsDir) (dirName child k : String) :
    findEntry (removeChild root dirName child) k
      = (findEntry root k).map fun node =>
          if k = dirName then removeChildNode child node else node :=
  findEntry_mapIf (removeChildNode child) dirName root k

/-- Lookup in `writeChild` output. -/
theorem findEntry_writeChild (root : FsDir) (dirName child : String) (bytes : List Nat)
    (k : String) :
    findEntry (writeChild root dirName child bytes) k
      = (findEntry root k).map fun node =>
          if k = dirName then writeChildNode child bytes node else node :=
  findEntry_mapIf (writeChildNode child bytes) dirName root k

/-- Lookup of the written directory after `writeChild` on it. -/
theorem findEntry_writeChild_self (root : FsDir) (d child : String) (bytes : List Nat)
    {cs : List (String × FsNode)} (h : findEntry root d = some (.dir cs)) :
    findEntry (writeChild root d child bytes) d
      = some (.dir ((cs.filter fun c => c.1 ≠ child) ++ [(child, .file bytes)])) := by
  rw [findEntry_writeChild, h, Option.map_some', if_pos rfl]
  rfl

/-- Lookup of the cleaned directory after `removeChild` on it. -/
theorem findEntry_removeChild_self (root : FsDir) (d child : String)
    {cs : List (String × FsNode)} (h : findEntry root d = some (.dir cs)) :
    findEntry (removeChild root d child) d
      = some (.dir (cs.filter fun c => c.1 ≠ child)) := by
  rw [findEntry_removeChild, h, Option.map_some', if_pos rfl]
  rfl

/-- Lookup skips a first block in which the key does not occur. -/
theorem findEntry_append_of_none {l₁ : FsDir} {k : String} (l₂ : FsDir)
    (h : findEntry l₁ k = none) : findEntry (l₁ ++ l₂) k = findEntry l₂ k := by
  induction l₁ with
  | nil => rfl
  | cons e rest ih =>
    obtain ⟨n, node⟩ := e
    simp only [List.cons_append, findEntry] at h ⊢
    by_cases hn : n = k
    · rw [if_pos hn] at h
      exact absurd h (by simp)
    · rw [if_neg hn] at h ⊢
      exact ih h

/-- Lookup fails when no listed key equals the searched one. -/
theorem findEntry_eq_none_of_keys {l : List (String × FsNode)} {k : String}
    (h : ∀ e ∈ l, e.1 ≠ k) : findEntry l k = none := by
  induction l with
  | nil => rfl
  | cons e rest ih =>
    obtain ⟨n, node⟩ := e
    unfold findEntry
    rw [if_neg (h (n, node) (List.mem_cons_self _ _))]
    exact ih fun e he => h e (List.mem_cons_of_mem _ he)

/-- Lookup of `k` fails in a listing filtered to keys different from `k`. -/
theorem findEntry_filter_ne (l : List (String × FsNode)) (k : String) :
    findEntry (l.filter fun c => c.1 ≠ k) k = none := by
  induction l with
  | nil => rfl
  | cons e rest ih =>
    obtain ⟨n, node⟩ := e
    by_cases hn : n = k
    · simpa [List.filter, hn] using ih
    · simpa [List.filter, hn, findEntry] using ih

/-- The two target names differ: `<pkg>.hpk` is shorter than
`<pkg>_package.tmp`. -/
theorem hpk_ne_tmp (pkg : String) : hpkName pkg ≠ tmpName pkg := by
  intro h
  unfold hpkName tmpName at h
  have hlen := congrArg String.length h
  rw [String.length_append, String.length_append,
    show (".hpk" : String).length = 4 from rfl,
    show ("_package.tmp" : String).length = 12 from rfl] at hlen
  omega

/-- After `prepare`, the project root has a `build` directory whose listing is
free of both the tmp file name and the final archive name. -/
theorem prepare_build {root : FsDir} {pkg : String} {r : FsDir}
    (h : prepare root pkg = some r) :
    ∃ cs : List (String × FsNode),
      findEntry r "build" = some (.dir
        ((cs.filter fun c => c.1 ≠ tmpName pkg).filter fun c => c.1 ≠ hpkName pkg)) := by
  unfold prepare at h
  rcases Option.map_eq_some'.mp h with ⟨r1, hens, hr⟩
  subst hr
  unfold ensureDir at hens
  have hfind : ∃ cs0, findEntry r1 "build" = some (.dir cs0) := by
    cases hf : findEntry root "build" with
    | none =>
      rw [hf] at hens
      injection hens with hens
      subst hens
      exact ⟨[], by rw [findEntry_append_of_none _ hf]; rfl⟩
    | some node =>
      cases node with
      | file bs => rw [hf] at hens; exact absurd hens (by simp)
      | dir cs0 =>
        rw [hf] at hens
        injection hens with hens
        subst hens
        exact ⟨cs0, hf⟩
  obtain ⟨cs0, hcs0⟩ := hfind
  refine ⟨cs0, ?_⟩
  rw [findEntry_removeChild, findEntry_removeChild, hcs0]
  simp [removeChildNode]

/-! ### Claims C2 and C3 (framing bytes, temp-file lifecycle) -/

/-- C2: a successful build leaves `build/<pkg>.hpk` holding exactly the UTF-8
header `# Start of <pkg>\n# Packaged by homeview-cli <version>\n`, the gzip
tar payload verbatim, and the UTF-8 footer `# End of <pkg>\n`; the reported
size is precisely the length of those bytes, and for `pkg = "demo"`,
`version = "1.0.1"` the frames are the literal strings of the claim. -/
theorem c2_framing_exact (pkg ver : String) (root r : FsDir)
    (h : prepare root pkg = some r) :
    findEntry (buildChildren (buildThread pkg ver .ok root).fs) (hpkName pkg)
      = some (.file (hpkBytes pkg ver (tarEncode (membersOf r))))
    ∧ (buildThread pkg ver .ok root).sizeOut
      = some (hpkBytes pkg ver (tarEncode (membersOf r))).length
    ∧ hpkBytes pkg ver (tarEncode (membersOf r))
      = utf8Bytes (headerStr pkg ver) ++ tarEncode (membersOf r) ++ utf8Bytes (footerStr pkg)
    ∧ utf8Bytes (headerStr pkg ver) <+: hpkBytes pkg ver (tarEncode (membersOf r))
    ∧ utf8Bytes (footerStr pkg) <:+ hpkBytes pkg ver (tarEncode (membersOf r))
    ∧ headerStr "demo" "1.0.1" = "# Start of demo\n# Packaged by homeview-cli 1.0.1\n"
    ∧ footerStr "demo" = "# End of demo\n" := by
  obtain ⟨cs0, hcs00⟩ := prepare_build h
  obtain ⟨cs1, hcs1, hkeys⟩ :
      ∃ cs1, findEntry r "build" = some (.dir cs1) ∧ ∀ e ∈ cs1, e.1 ≠ hpkName pkg :=
    ⟨_, hcs00, fun e he => of_decide_eq_true (List.mem_filter.mp he).2⟩
  have hbt : buildThread pkg ver .ok root =
      ⟨some (hpkBytes pkg ver (tarEncode (membersOf r))).length,
        removeChild
          (writeChild
            (writeChild r "build" (tmpName pkg) (tarEncode (membersOf r)))
            "build" (hpkName pkg) (hpkBytes pkg ver (tarEncode (membersOf r))))
          "build" (tmpName pkg)⟩ := by
    unfold buildThread
    rw [h]
  have e3 := findEntry_removeChild_self _ "build" (tmpName pkg)
    (findEntry_writeChild_self _ "build" (hpkName pkg)
      (hpkBytes pkg ver (tarEncode (membersOf r)))
      (findEntry_writeChild_self _ "build" (tmpName pkg) (tarEncode (membersOf r)) hcs1))
  refine ⟨?_, by rw [hbt], rfl, ?_, ?_, rfl, rfl⟩
  · rw [hbt]
    unfold buildChildren
    rw [e3, List.filter_append]
    have hsingle : ([(hpkName pkg, FsNode.file (hpkBytes pkg ver (tarEncode (membersOf r))))].filter
        fun c => c.1 ≠ tmpName pkg)
        = [(hpkName pkg, FsNode.file (hpkBytes pkg ver (tarEncode (membersOf r))))] := by
      simp [List.filter, hpk_ne_tmp pkg]
    rw [hsingle, findEntry_append_of_none]
    · simp [findEntry]
    · exact findEntry_eq_none_of_keys fun e he =>
        of_decide_eq_true (List.mem_filter.mp (List.mem_filter.mp he).1).2
  · rw [hpkBytes, List.append_assoc]
    exact List.prefix_append _ _
  · exact List.suffix_append _ _

/-- C2 witness: the empty project built as `demo`/`1.0.1`; the archive bytes
are header, payload, footer with the literal frame strings. -/
theorem c2_framing_exact_witness :
    findEntry (buildChildren (buildThread "demo" "1.0.1" .ok []).fs) (hpkName "demo")
      = some (.file (hpkBytes "demo" "1.0.1" (tarEncode (membersOf [("build", FsNode.dir [])]))))
    ∧ (buildThread "demo" "1.0.1" .ok []).sizeOut
      = some (hpkBytes "demo" "1.0.1" (tarEncode (membersOf [("build", FsNode.dir [])]))).length
    ∧ hpkBytes "demo" "1.0.1" (tarEncode (membersOf [("build", FsNode.dir [])]))
      = utf8Bytes (headerStr "demo" "1.0.1")
        ++ tarEncode (membersOf [("build", FsNode.dir [])]) ++ utf8Bytes (footerStr "demo")
    ∧ utf8Bytes (headerStr "demo" "1.0.1")
      <+: hpkBytes "demo" "1.0.1" (tarEncode (membersOf [("build", FsNode.dir [])]))
    ∧ utf8Bytes (footerStr "demo")
      <:+ hpkBytes "demo" "1.0.1" (tarEncode (membersOf [("build", FsNode.dir [])]))
    ∧ headerStr "demo" "1.0.1" = "# Start of demo\n# Packaged by homeview-cli 1.0.1\n"
    ∧ footerStr "demo" = "# End of demo\n" :=
  c2_framing_exact "demo" "1.0.1" [] [("build", FsNode.dir [])] rfl

/-- C3 counterexample: when the post-framing `fs.removeSync(tarballPath)`
throws (the `cleanupFail` fault), `startBuild` catches the error and reports a
failed build, yet the fully framed `build/pkg.hpk` remains on disk: the
claim's "after a failed build the final .hpk does not exist" is false for this
failure. -/
theorem c3_counterexample :
    (buildThread "pkg" "1.0.0" .cleanupFail []).sizeOut = none
    ∧ (findEntry (buildChildren (buildThread "pkg" "1.0.0" .cleanupFail []).fs)
        (hpkName "pkg")).isSome = true :=
  ⟨rfl, by decide⟩

/-- C3 (amended): after a successful build the `_package.tmp` intermediate
does not exist; after a build that fails during tarball creation (before the
framing write), the final `.hpk` does not exist.  A failure after framing
(such as the temp-file removal throwing) leaves the completed `.hpk` behind,
so the claim's second half holds only for pre-framing failures. -/
theorem c3_temp_lifecycle (pkg ver : String) (root r : FsDir)
    (h : prepare root pkg = some r) :
    findEntry (buildChildren (buildThread pkg ver .ok root).fs) (tmpName pkg) = none
    ∧ (buildThread pkg ver .ok root).sizeOut.isSome = true
    ∧ (buildThread pkg ver .tarFail root).sizeOut = none
    ∧ findEntry (buildChildren (buildThread pkg ver .tarFail root).fs) (hpkName pkg) = none := by
  obtain ⟨cs0, hcs0⟩ := prepare_build h
  have hbt : buildThread pkg ver .ok root =
      ⟨some (hpkBytes pkg ver (tarEncode (membersOf r))).length,
        removeChild
          (writeChild
            (writeChild r "build" (tmpName pkg) (tarEncode (membersOf r)))
            "build" (hpkName pkg) (hpkBytes pkg ver (tarEncode (membersOf r))))
          "build" (tmpName pkg)⟩ := by
    unfold buildThread
    rw [h]
  have hbt2 : buildThread pkg ver .tarFail root = ⟨none, r⟩ := by
    unfold buildThread
    rw [h]
  have e3 := findEntry_removeChild_self _ "build" (tmpName pkg)
    (findEntry_writeChild_self _ "build" (hpkName pkg)
      (hpkBytes pkg ver (tarEncode (membersOf r)))
      (findEntry_writeChild_self _ "build" (tmpName pkg) (tarEncode (membersOf r)) hcs0))
  refine ⟨?_, by rw [hbt]; rfl, by rw [hbt2], ?_⟩

  · rw [hbt]
    unfold buildChildren
    rw [e3]
    exact findEntry_filter_ne _ _
  · rw [hbt2]
    unfold buildChildren
    rw [hcs0]
    exact findEntry_filter_ne _ _

/-- C3 witness: the amended lifecycle at the empty project. -/
theorem c3_temp_lifecycle_witness :
    findEntry (buildChildren (buildThread "p" "v" .ok []).fs) (tmpName "p") = none
    ∧ (buildThread "p" "v" .ok []).sizeOut.isSome = true
    ∧ (buildThread "p" "v" .tarFail []).sizeOut = none
    ∧ findEntry (buildChildren (buildThread "p" "v" .tarFail []).fs) (hpkName "p") = none :=
  c3_temp_lifecycle "p" "v" [] [("build", FsNode.dir [])] rfl

/-! ### JSON round-trip lemmas (claim C8) -/

/-- Decoding a hexadecimal digit the stringifier printed recovers its value. -/
theorem hexVal_hexDig {d : Nat} (hd : d < 16) : hexVal (hexDig d) = some d := by
  interval_cases d <;> decide

/-- Whitespace is skipped one character at a time. -/
theorem skipWs_cons_ws (c : Char) (h : isWs c = true) (l : List Char) :
    skipWs (c :: l) = skipWs l := by
  simp [skipWs, h]

/-- A non-whitespace head stops the skipping. -/
theorem skipWs_cons_not (c : Char) (h : isWs c = false) (l : List Char) :
    skipWs (c :: l) = c :: l := by
  simp [skipWs, h]

/-- Reading back an escaped string body recovers the original characters and
leaves exactly the input after the closing quote. -/
theorem parseStrTail_escape (s : List Char) (rest : List Char) :
    parseStrTail (s.flatMap escChar ++ ('"' :: rest)) = some (s, rest) := by
  induction s with
  | nil =>
    rw [List.flatMap_nil, List.nil_append, parseStrTail.eq_def]
    simp
  | cons c cs ih =>
    rw [List.flatMap_cons, List.append_assoc]
    by_cases h1 : c = '"'
    · subst h1
      rw [show escChar '"' = ['\\', '"'] from rfl]
      rw [parseStrTail.eq_def]
      simp [ih]
    · by_cases h2 : c = '\\'
      · subst h2
        rw [show escChar '\\' = ['\\', '\\'] from rfl]
        rw [parseStrTail.eq_def]
        simp [ih]
      · by_cases h3 : c = '\x08'
        · subst h3
          rw [show escChar '\x08' = ['\\', 'b'] from rfl]
          rw [parseStrTail.eq_def]
          simp [ih]
        · by_cases h4 : c = '\t'
          · subst h4
            rw [show escChar '\t' = ['\\', 't'] from rfl]
            rw [parseStrTail.eq_def]
            simp [ih]
          · by_cases h5 : c = '\n'
            · subst h5
              rw [show escChar '\n' = ['\\', 'n'] from rfl]
              rw [parseStrTail.eq_def]
              simp [ih]
            · by_cases h6 : c = '\x0c'
              · subst h6
                rw [show escChar '\x0c' = ['\\', 'f'] from rfl]
                rw [parseStrTail.eq_def]
                simp [ih]
              · by_cases h7 : c = '\r'
                · subst h7
                  rw [show escChar '\r' = ['\\', 'r'] from rfl]
                  rw [parseStrTail.eq_def]
                  simp [ih]
                · by_cases h8 : c.toNat < 32
                  · have hesc : escChar c
                        = ['\\', 'u', '0', '0', hexDig (c.toNat / 16), hexDig (c.toNat % 16)] := by
                      simp [escChar, h1, h2, h3, h4, h5, h6, h7, h8]
                    have hhi : hexVal (hexDig (c.toNat / 16)) = some (c.toNat / 16) :=
                      hexVal_hexDig (by omega)
                    have hlo : hexVal (hexDig (c.toNat % 16)) = some (c.toNat % 16) :=
                      hexVal_hexDig (Nat.mod_lt _ (by norm_num))
                    have h0 : hexVal '0' = some 0 := rfl
                    rw [hesc]
                    rw [show (['\\', 'u', '0', '0', hexDig (c.toNat / 16),
                        hexDig (c.toNat % 16)] : List Char)
                        ++ (cs.flatMap escChar ++ '"' :: rest)
                      = '\\' :: 'u' :: '0' :: '0' :: hexDig (c.toNat / 16)
                        :: hexDig (c.toNat % 16) :: (cs.flatMap escChar ++ '"' :: rest) from rfl]
                    rw [parseStrTail.eq_def]
                    simp only [h0, hhi, hlo, ih]
                    simp
                    rw [show c.toNat / 16 * 16 + c.toNat % 16 = c.toNat by omega]
                    exact Char.ofNat_toNat c
                  · have hesc : escChar c = [c] := by
                      simp [escChar, h1, h2, h3, h4, h5, h6, h7, h8]
                    rw [hesc, List.singleton_append, parseStrTail.eq_def]
                    simp [h1, h2, ih]

/-- A rendered value never starts with whitespace. -/
theorem skipWs_render (v : FlatVal) (tail : List Char) :
    skipWs (renderFlatVal v ++ tail) = renderFlatVal v ++ tail := by
  cases v with
  | fstr s => rfl
  | fbool b => cases b <;> rfl
  | femptyArr => rfl

/-- Reading back a rendered value recovers it. -/
theorem parseFlatVal_render (v : FlatVal) (rest : List Char) :
    parseFlatVal (renderFlatVal v ++ rest) = some (v, rest) := by
  cases v with
  | fstr s =>
    show parseFlatVal ('"' :: ((s.data.flatMap escChar ++ ['"']) ++ rest)) = _
    rw [List.append_assoc]
    show (parseStrTail (s.data.flatMap escChar ++ ('"' :: rest))).map _ = _
    rw [parseStrTail_escape]
    rfl
  | fbool b => cases b <;> rfl
  | femptyArr => rfl

/-- The member loop ignores leading whitespace. -/
theorem parseFields_cons_ws (f : Nat) (c : Char) (h : isWs c = true) (cs : List Char) :
    parseFields (f + 1) (c :: cs) = parseFields (f + 1) cs := by
  simp only [parseFields]
  rw [skipWs_cons_ws c h]

/-- Reading one rendered `"key": value` member: the continuation depends only
on the first significant character after it. -/
theorem parseFields_field (k : String) (v : FlatVal) (f : Nat) (tail : List Char) :
    parseFields (f + 1) (renderField (k, v) ++ tail)
      = match skipWs tail with
        | ',' :: cs5 => (parseFields f cs5).map fun p => ((k, v) :: p.1, p.2)
        | '}' :: cs5 => some ([(k, v)], cs5)
        | _ => none := by
  simp [parseFields, renderField, quoteChars, skipWs, isWs, parseStrTail_escape,
    skipWs_render, parseFlatVal_render]

/-- Reading back the rendered member lines of a non-empty manifest, up to and
past the closing brace. -/
theorem parseFields_render (m : List (String × FlatVal)) :
    ∀ fuel : Nat, m ≠ [] → m.length ≤ fuel → ∀ rest : List Char,
    parseFields fuel (renderFields m ++ ('\n' :: '}' :: rest)) = some (m, rest) := by
  induction m with
  | nil =>
    intro fuel hm _ rest
    exact absurd rfl hm
  | cons kv m' ih =>
    intro fuel hm hlen rest
    obtain ⟨k, v⟩ := kv
    cases fuel with
    | zero => simp at hlen
    | succ f =>
      cases m' with
      | nil =>
        show parseFields (f + 1) (renderField (k, v) ++ ('\n' :: '}' :: rest)) = _
        rw [parseFields_field]
        simp [skipWs, isWs]
      | cons kv2 m'' =>
        have hr : renderFields ((k, v) :: kv2 :: m'') ++ ('\n' :: '}' :: rest)
            = renderField (k, v)
              ++ (',' :: '\n' :: (renderFields (kv2 :: m'') ++ ('\n' :: '}' :: rest))) := by
          simp [renderFields]
        rw [hr, parseFields_field]
        have hone : ∃ f2, f = f2 + 1 := by
          rcases f with - | f2
          · simp at hlen
          · exact ⟨f2, rfl⟩
        obtain ⟨f2, rfl⟩ := hone
        show (parseFields (f2 + 1)
            ('\n' :: (renderFields (kv2 :: m'') ++ ('\n' :: '}' :: rest)))).map
            (fun p => ((k, v) :: p.1, p.2)) = _
        rw [parseFields_cons_ws f2 '\n' rfl,
          ih (f2 + 1) (by simp) (by simp at hlen ⊢; omega) rest]
        rfl

/-- Each member of the manifest occupies at least one rendered character. -/
theorem length_renderFields (m : List (String × FlatVal)) :
    m.length ≤ (renderFields m).length := by
  induction m with
  | nil => simp [renderFields]
  | cons kv m' ih =>
    cases m' with
    | nil => simp [renderFields, renderField]
    | cons kv2 m'' =>
      have h2 : 2 ≤ (renderField kv).length := by
        simp [renderField]
      simp only [renderFields, List.length_append, List.length_cons] at ih ⊢
      omega

/-- Parsing the persisted text of any flat manifest recovers it exactly. -/
theorem parseManifest_render (m : List (String × FlatVal)) :
    parseManifest (renderManifest m) = some m := by
  cases m with
  | nil => rfl
  | cons kv m' =>
    obtain ⟨k, v⟩ := kv
    have hhead : (skipWs ('\n' :: (renderFields ((k, v) :: m') ++ ['\n', '}', '\n']))).head?
        = some '"' := by
      cases m' with
      | nil => simp [renderFields, renderField, quoteChars, skipWs, isWs]
      | cons kv2 m'' => simp [renderFields, renderField, quoteChars, skipWs, isWs]
    show (if (skipWs ('\n' :: (renderFields ((k, v) :: m') ++ ['\n', '}', '\n']))).head?
          = some '}' then
        if (skipWs (skipWs ('\n' :: (renderFields ((k, v) :: m')
            ++ ['\n', '}', '\n']))).tail).isEmpty then some [] else none
      else
        match parseFields
            (('{' :: '\n' :: (renderFields ((k, v) :: m') ++ ['\n', '}', '\n'])).length + 1)
            ('\n' :: (renderFields ((k, v) :: m') ++ ['\n', '}', '\n'])) with
        | some (fields, rest) => if (skipWs rest).isEmpty then some fields else none
        | none => none) = some ((k, v) :: m')
    rw [if_neg (by rw [hhead]; simp)]
    rw [parseFields_cons_ws _ '\n' rfl]
    have hfuel : ((k, v) :: m').length
        ≤ ('{' :: '\n' :: (renderFields ((k, v) :: m') ++ ['\n', '}', '\n'])).length + 1 := by
      have := length_renderFields ((k, v) :: m')
      simp only [List.length_cons, List.length_append] at this ⊢
      omega
    rw [parseFields_render ((k, v) :: m') _ (by simp) hfuel ['\n']]
    rfl

/-- C8: for every manifest the interactive flow produces, saving it with
`writeJsonSync` and loading the file back with `readJsonSync` yields a
structurally equal object, and the loaded object passes schema validation: no
field is lost or altered by the persistence cycle. -/
theorem c8_roundtrip (a : Answers) :
    parseManifest (renderManifest (gatherAppInfo a)) = some (gatherAppInfo a)
    ∧ validate ((gatherAppInfo a).map fun kv => (kv.1, toJVal kv.2)) = [] := by
  refine ⟨parseManifest_render _, ?_⟩
  obtain ⟨an, pn, vr, de, ve, at_, dm⟩ := a
  cases at_ <;> rfl

/-- C8 witness: the round trip evaluated at one concrete set of interactive
answers. -/
theorem c8_roundtrip_witness :
    parseManifest (renderManifest
        (gatherAppInfo ⟨"app", "pkg", "1.0.0", "desc", "vendor", true, false⟩))
      = some (gatherAppInfo ⟨"app", "pkg", "1.0.0", "desc", "vendor", true, false⟩)
    ∧ validate ((gatherAppInfo ⟨"app", "pkg", "1.0.0", "desc", "vendor", true, false⟩).map
        fun kv => (kv.1, toJVal kv.2)) = [] :=
  c8_roundtrip ⟨"app", "pkg", "1.0.0", "desc", "vendor", true, false⟩

end Homeview
